import Mathlib

/-!
Verification development for the py_omen OMEN password enumerator.

The definitions below are a shallow embedding of the Python sources:
  omen_cracker/input_file_io.py  (ruleset loader)
  omen_cracker/markov_cracker.py (MarkovCracker enumerator)
The file guess_structure.py is imported by markov_cracker.py but is not part
of the sources at hand, so the inner walker (GuessStructure) is modelled from
the specification, section 4.3; every such definition is marked in its doc
comment.

Symbol strings are modelled as lists of characters.  Python dictionaries that
are keyed by consecutive integer levels (the ip and ln tables, which the
loader initialises with keys 0 .. max_level) are modelled as lists indexed by
level; dictionaries with arbitrary keys (ep, cp) are modelled as association
lists in insertion order, which mirrors Python dict iteration order.
Machine-level integers from Python are arbitrary-precision, so levels read
from files are Int, and indices and validated levels are Nat.
-/

/-- A symbol string (Python str restricted to the alphabet). -/
abbrev Str : Type := List Char

/-- The loaded ruleset, mirroring the grammar dictionary documented at the
top of input_file_io.py: max_level and ngram from config.txt, ip and ln as
level-indexed buckets, ep as a key-to-level map, cp as a context-to-buckets
map. -/
structure Grammar where
  maxLevel : Nat
  ngram : Nat
  ip : List (List Str)
  ep : List (Str × Nat)
  cp : List (Str × List (Nat × List Char))
  ln : List (List Nat)
deriving DecidableEq

/-- Bucket access grammar.ip level, defaulting to the empty bucket. -/
def ipBucket (g : Grammar) (lvl : Nat) : List Str :=
  g.ip.getD lvl []

/-- Bucket access grammar.ln level, defaulting to the empty bucket. -/
def lnBucket (g : Grammar) (lvl : Nat) : List Nat :=
  g.ln.getD lvl []

/-- Look up the per-context level buckets grammar.cp context.  A missing
context yields no buckets. -/
def cpAssoc (g : Grammar) (ctx : Str) : List (Nat × List Char) :=
  match g.cp.find? (fun e => e.1 == ctx) with
  | some e => e.2
  | none => []

/-- The bucket grammar.cp context level; a missing (context, level) pair
means no next symbol with that level from the context. -/
def cpAt (g : Grammar) (ctx : Str) (lvl : Nat) : List Char :=
  match (cpAssoc g ctx).find? (fun e => e.1 == lvl) with
  | some e => e.2
  | none => []

/-! ## Loader (input_file_io.py)

load_rules reads the four level files.  Each line of an ngram file
(IP.level, EP.level, CP.level) is already split at the tab into the integer
level and the payload string; LN.level lines are bare integers.  A returned
none models the Python exception path, which load_rules converts into the
failure result False. -/

/-- Append a value to the bucket at a level index inside a level-indexed
bucket list (the Python dict[level].append). -/
def bucketAppend (buckets : List (List α)) (lvl : Nat) (x : α) : List (List α) :=
  buckets.set lvl (buckets.getD lvl [] ++ [x])

/-- Processing loop of _load_ngrams for the "ip" table: range-check each
level and append the payload to that level bucket. -/
def loadIPAux (maxLevel : Nat) (buckets : List (List Str)) :
    List (Int × Str) → Option (List (List Str))
  | [] => some buckets
  | (lvl, s) :: rest =>
    if lvl < 0 ∨ lvl > (maxLevel : Int) then none
    else loadIPAux maxLevel (bucketAppend buckets lvl.toNat s) rest

/-- _load_ngrams for IP.level: buckets for levels 0 .. max_level are
pre-initialised empty, then each line is filed under its level. -/
def loadIP (maxLevel : Nat) (lines : List (Int × Str)) : Option (List (List Str)) :=
  loadIPAux maxLevel (List.replicate (maxLevel + 1) []) lines

/-- Python dict assignment d[key] = value on an association list: overwrite
in place if the key exists, otherwise append. -/
def assocSet (l : List (Str × α)) (k : Str) (v : α) : List (Str × α) :=
  match l with
  | [] => [(k, v)]
  | e :: rest => if e.1 == k then (k, v) :: rest else e :: assocSet rest k v

/-- Processing loop of _load_ngrams for the "ep" table: range-check each
level and record payload-to-level. -/
def loadEPAux (maxLevel : Nat) (acc : List (Str × Nat)) :
    List (Int × Str) → Option (List (Str × Nat))
  | [] => some acc
  | (lvl, s) :: rest =>
    if lvl < 0 ∨ lvl > (maxLevel : Int) then none
    else loadEPAux maxLevel (assocSet acc s lvl.toNat) rest

/-- _load_ngrams for EP.level. -/
def loadEP (maxLevel : Nat) (lines : List (Int × Str)) : Option (List (Str × Nat)) :=
  loadEPAux maxLevel [] lines

/-- Insert one CP transition: file the last character of the payload under
cp[context][level], creating the context entry and the level bucket on first
use, appending otherwise (insertion order preserved as in a Python dict). -/
def cpInsert (cp : List (Str × List (Nat × List Char))) (ctx : Str) (lvl : Nat)
    (c : Char) : List (Str × List (Nat × List Char)) :=
  match cp with
  | [] => [(ctx, [(lvl, [c])])]
  | e :: rest =>
    if e.1 == ctx then
      (e.1, match e.2.find? (fun b => b.1 == lvl) with
            | some _ => e.2.map (fun b => if b.1 == lvl then (b.1, b.2 ++ [c]) else b)
            | none => e.2 ++ [(lvl, [c])]) :: rest
    else e :: cpInsert rest ctx lvl c

/-- Processing loop of _load_ngrams for the "cp" table.  The payload is split
into the context (all but the last character) and the transition target (the
last character); an empty payload models the Python IndexError on
line[1][-1], which aborts the load. -/
def loadCPAux (maxLevel : Nat) (acc : List (Str × List (Nat × List Char))) :
    List (Int × Str) → Option (List (Str × List (Nat × List Char)))
  | [] => some acc
  | (lvl, s) :: rest =>
    if lvl < 0 ∨ lvl > (maxLevel : Int) then none
    else
      match s.getLast? with
      | none => none
      | some c => loadCPAux maxLevel (cpInsert acc s.dropLast lvl.toNat c) rest

/-- _load_ngrams for CP.level. -/
def loadCP (maxLevel : Nat) (lines : List (Int × Str)) :
    Option (List (Str × List (Nat × List Char))) :=
  loadCPAux maxLevel [] lines

/-- Processing loop of _load_length: lines are read with a running length
counter starting at 1; each level is range-checked, and the value
curLength - (minSize - 1) is filed under the level bucket only when
curLength is at least minSize. -/
def loadLNAux (maxLevel minSize : Nat) (buckets : List (List Nat)) :
    Nat → List Int → Option (List (List Nat))
  | _, [] => some buckets
  | curLength, lvl :: rest =>
    if lvl < 0 ∨ lvl > (maxLevel : Int) then none
    else
      let buckets' :=
        if minSize ≤ curLength then
          bucketAppend buckets lvl.toNat (curLength - (minSize - 1))
        else buckets
      loadLNAux maxLevel minSize buckets' (curLength + 1) rest

/-- _load_length: buckets for levels 0 .. max_level start empty and the line
loop starts with length 1. -/
def loadLN (maxLevel minSize : Nat) (lines : List Int) : Option (List (List Nat)) :=
  loadLNAux maxLevel minSize (List.replicate (maxLevel + 1) []) 1 lines

/-- load_rules after the config and alphabet have been read: load the IP, EP
and CP ngram files and then LN.level, which load_rules calls with
min_size = grammar.ngram.  Any per-file failure is caught by load_rules and
surfaced as the failure result, modelled as none.  The version gate and the
alphabet file do not affect the table contents and are not modelled here. -/
def loadRules (ngram maxLevel : Nat) (ipLines epLines cpLines : List (Int × Str))
    (lnLines : List Int) : Option Grammar :=
  match loadIP maxLevel ipLines with
  | none => none
  | some ip =>
    match loadEP maxLevel epLines with
    | none => none
    | some ep =>
      match loadCP maxLevel cpLines with
      | none => none
      | some cp =>
        match loadLN maxLevel ngram lnLines with
        | none => none
        | some ln => some ⟨maxLevel, ngram, ip, ep, cp, ln⟩

/-! ## Guess structure (inner walker)

Modelled from the spec: guess_structure.py is not among the sources, so the
GuessStructure walker is taken from specification section 4.3.  Given the
fixed IP string, the CP-application count k and the target CP-sum S, it
emits every extension by k next symbols whose CP levels sum exactly to S, in
the deterministic odometer order of the spec (levels ascending at each slot,
bucket order within a level, rightmost slot advancing fastest). -/

/-- The last n symbols of a string: the walker context. -/
def lastN (n : Nat) (s : Str) : Str :=
  s.drop (s.length - n)

/-- Modelled from the spec: the full ordered list of strings the
GuessStructure walker emits for prefix pref, k remaining CP applications and
remaining CP-sum s.  The context of each slot is the last ngram - 1 symbols
of the prefix built so far. -/
def genCP (g : Grammar) : Nat → Str → Int → List Str
  | 0, pref, s => if s = 0 then [pref] else []
  | k + 1, pref, s =>
    (List.range (g.maxLevel + 1)).flatMap (fun lvl =>
      if (lvl : Int) ≤ s then
        (cpAt g (lastN (g.ngram - 1) pref) lvl).flatMap
          (fun c => genCP g k (pref ++ [c]) (s - (lvl : Int)))
      else [])

/-! ## MarkovCracker (markov_cracker.py) -/

/-- _find_first_object: scan levels 0 .. max_level - 1 (the Python loop is
range(0, max_level)) for the first non-empty bucket; none models the raised
exception when no scanned bucket is non-empty. -/
def findFirstObject (maxLevel : Nat) (table : List (List α)) : Option Nat :=
  (List.range maxLevel).find? (fun lvl => !(table.getD lvl []).isEmpty)

/-- The pair (start_ip, start_length) computed in MarkovCracker.__init__;
none models the exception raised by _find_first_object, which makes the
construction of the cracker fail. -/
def startPointers (g : Grammar) : Option (Nat × Nat) :=
  match findFirstObject g.maxLevel g.ip, findFirstObject g.maxLevel g.ln with
  | some sIp, some sLn => some (sIp, sLn)
  | _, _ => none

/-- The per-cracker immutable data next_guess reads: the grammar and the
start_ip / start_length values established in __init__. -/
structure Ctx where
  g : Grammar
  startIp : Nat
  startLn : Nat
deriving DecidableEq

/-- The mutable state of a MarkovCracker.  curLen and curIp are the two
(level, index) pointers; curGuess holds the remaining output of the current
guess structure, none modelling Python cur_guess = None.  In the fresh state
the pointers hold the placeholder (0, 0) where Python stores None; they are
never read before next_guess assigns them. -/
structure MCState where
  targetLevel : Int
  increase : Bool
  curLen : Nat × Nat
  curIp : Nat × Nat
  curGuess : Option (List Str)
deriving DecidableEq

/-- The state set up by __init__ when restore is false. -/
def freshState : MCState :=
  ⟨0, false, (0, 0), (0, 0), none⟩

/-- Create the current guess structure from the current pointers, as done at
every GuessStructure construction site in markov_cracker.py: the IP string is
grammar.ip at curIp, the CP count is grammar.ln at curLen, and the walker
target is targetLevel - curLen level - curIp level. -/
def rebuildGuess (c : Ctx) (s : MCState) : MCState :=
  { s with curGuess := some (genCP c.g
      ((lnBucket c.g s.curLen.1).getD s.curLen.2 0)
      ((ipBucket c.g s.curIp.1).getD s.curIp.2 [])
      (s.targetLevel - (s.curLen.1 : Int) - (s.curIp.1 : Int))) }

/-- The state built at the top of next_guess when no guess structure is
active: pointers at the start levels, a fresh guess structure. -/
def startState (c : Ctx) (inc : Bool) (t : Int) : MCState :=
  rebuildGuess c ⟨t, inc, (c.startLn, 0), (c.startIp, 0), none⟩

/-- The start-of-call block of next_guess for cur_guess = None: in automatic
mode the target becomes start_length + start_ip with the increase flag set;
with a fixed level the call bails out (none) when that lowest level already
exceeds the requested one, else the target is the requested level with the
increase flag cleared. -/
def initPass (c : Ctx) (lvl : Option Int) : Option MCState :=
  match lvl with
  | none => some (startState c true ((c.startLn : Int) + (c.startIp : Int)))
  | some l =>
    if ((c.startLn : Int) + (c.startIp : Int)) > l then none
    else some (startState c false l)

/-- The scanning loop shared by _increase_ip_for_target and
_increase_len_for_target: starting from a level and an index, find the first
level whose bucket is longer than the index; on advancing a level the index
resets to 0 and the loop gives up past max_level or past the working
target.  The budget bounds the loop, which advances the level by one each
round and never goes beyond maxLevel + 1, so maxLevel + 2 rounds always
suffice. -/
def scanBuckets (maxLevel : Nat) (sizes : Nat → Nat) (workingTarget : Int) :
    Nat → Nat → Nat → Option (Nat × Nat)
  | 0, _, _ => none
  | b + 1, lvl, idx =>
    if lvl ≤ maxLevel then
      if sizes lvl > idx then some (lvl, idx)
      else
        if lvl + 1 > maxLevel then none
        else if ((lvl + 1 : Nat) : Int) > workingTarget then none
        else scanBuckets maxLevel sizes workingTarget b (lvl + 1) 0
    else none

/-- _increase_ip_for_target: scan from (curIp level, curIp index + 1); on
success store the new IP pointer and rebuild the guess structure. -/
def increaseIpState (c : Ctx) (s : MCState) (workingTarget : Int) : Option MCState :=
  match scanBuckets c.g.maxLevel (fun lvl => (ipBucket c.g lvl).length) workingTarget
      (c.g.maxLevel + 2) s.curIp.1 (s.curIp.2 + 1) with
  | some p => some (rebuildGuess c { s with curIp := p })
  | none => none

/-- _increase_len_for_target: scan from (curLen level, curLen index + 1)
against the full target level; on success store the new length pointer,
reset the IP pointer to the start and rebuild the guess structure. -/
def increaseLenState (c : Ctx) (s : MCState) : Option MCState :=
  match scanBuckets c.g.maxLevel (fun lvl => (lnBucket c.g lvl).length) s.targetLevel
      (c.g.maxLevel + 2) s.curLen.1 (s.curLen.2 + 1) with
  | some p => some (rebuildGuess c { s with curLen := p, curIp := (c.startIp, 0) })
  | none => none

/-- The level-increase branch of next_guess: target level + 1, pointers back
to the start levels, fresh guess structure. -/
def bumpTarget (c : Ctx) (s : MCState) : MCState :=
  rebuildGuess c { s with targetLevel := s.targetLevel + 1,
                          curLen := (c.startLn, 0), curIp := (c.startIp, 0) }

/-- Result of one next_guess call: a guess with the target level it was
emitted at, the Python return None (exhausted), or exhaustion of the fuel
bounding the unbounded Python while loop. -/
inductive StepResult where
  | emit (gs : Str) (t : Int)
  | exhausted
  | fuelOut
deriving DecidableEq

/-- The guess-draw-and-increase loop of next_guess: draw from the current
guess structure; while it is empty, try to advance the IP, then the length,
then (in automatic mode) the target level, and in fixed-level mode clear the
guess structure and report exhaustion. -/
def guessLoop (c : Ctx) : Nat → MCState → StepResult × MCState
  | 0, s => (.fuelOut, s)
  | fuel + 1, s =>
    match s.curGuess with
    | none => (.fuelOut, s)
    | some [] =>
      match increaseIpState c s (s.targetLevel - (s.curLen.1 : Int)) with
      | some s1 => guessLoop c fuel s1
      | none =>
        match increaseLenState c s with
        | some s1 => guessLoop c fuel s1
        | none =>
          if s.increase then guessLoop c fuel (bumpTarget c s)
          else (.exhausted, { s with curGuess := none })
    | some (gstr :: rest) =>
      (.emit gstr s.targetLevel, { s with curGuess := some rest })

/-- MarkovCracker.next_guess: when a guess structure is active the level
argument is ignored and the loop continues; otherwise the call is
initialised by initPass, whose bail-out (fixed level below the lowest
possible) returns None with the state untouched. -/
def nextGuess (c : Ctx) (fuel : Nat) (lvl : Option Int) (s : MCState) :
    StepResult × MCState :=
  match s.curGuess with
  | some _ => guessLoop c fuel s
  | none =>
    match initPass c lvl with
    | none => (.exhausted, s)
    | some s1 => guessLoop c fuel s1

/-- n successive next_guess calls in automatic mode, collecting the emitted
(guess, target level) pairs and stopping at the first call that does not
emit, as the enumNG driver loop does. -/
def runAuto (c : Ctx) (fuel : Nat) : Nat → MCState → List (Str × Int) × MCState
  | 0, s => ([], s)
  | n + 1, s =>
    match nextGuess c fuel none s with
    | (.emit gstr t, s1) =>
      match runAuto c fuel n s1 with
      | (l, sf) => ((gstr, t) :: l, sf)
    | (_, s1) => ([], s1)

/-- n successive next_guess calls at a fixed level, collecting emissions and
stopping at the first call that does not emit. -/
def runFixed (c : Ctx) (fuel : Nat) (l : Int) : Nat → MCState → List (Str × Int) × MCState
  | 0, s => ([], s)
  | n + 1, s =>
    match nextGuess c fuel (some l) s with
    | (.emit gstr t, s1) =>
      match runFixed c fuel l n s1 with
      | (lst, sf) => ((gstr, t) :: lst, sf)
    | (_, s1) => ([], s1)

/-! ## Session persistence (save_session / load_session) -/

/-- The constructor arguments of MarkovCracker used for session sanity
checks. -/
structure Cfg where
  version : String
  ruleName : String
  uuid : String
deriving DecidableEq

/-- The contents of a complete session file, in the pickle order of
save_session: the three sanity-check values, then the cracker variables,
then the walker state.  The walker state (Python parse_tree plus the
first_guess flag) determines the remaining output of the guess structure,
which is how the spec-modelled walker carries it. -/
structure SessionFile where
  version : String
  ruleName : String
  uuid : String
  targetLevel : Int
  increase : Bool
  curIp : Nat × Nat
  curLen : Nat × Nat
  parseTree : List Str
deriving DecidableEq

/-- save_session: dump the sanity-check values, the cracker variables and
the walker state of cur_guess.  When no guess structure is active the
attribute access cur_guess.parse_tree raises, modelled as none. -/
def saveSession (cfg : Cfg) (s : MCState) : Option SessionFile :=
  match s.curGuess with
  | none => none
  | some gs =>
    some ⟨cfg.version, cfg.ruleName, cfg.uuid,
          s.targetLevel, s.increase, s.curIp, s.curLen, gs⟩

/-- load_session: reject the file when the saved version, rule name or UUID
differs from the current model; then restore the cracker variables and
rebuild the guess structure.  The rebuild indexes grammar.ip at the restored
IP pointer and grammar.ln at the restored length pointer (a failing lookup
models the Python KeyError/IndexError), and then overwrites the walker state
with the saved one, so the restored walker is exactly the saved
parse-tree state. -/
def loadSession (cfg : Cfg) (g : Grammar) (f : SessionFile) : Option MCState :=
  if f.version ≠ cfg.version then none
  else if f.ruleName ≠ cfg.ruleName then none
  else if f.uuid ≠ cfg.uuid then none
  else
    match (g.ip.get? f.curIp.1).bind (fun b => b.get? f.curIp.2),
          (g.ln.get? f.curLen.1).bind (fun b => b.get? f.curLen.2) with
    | some _, some _ =>
      some ⟨f.targetLevel, f.increase, f.curLen, f.curIp, some f.parseTree⟩
    | _, _ => none

/-! ## parse_input (diagnostic) -/

/-- The Python loop for i in range(0, budget) starting at cur, returning the
first scanned value satisfying the test. -/
def scanLevels (test : Nat → Bool) : Nat → Nat → Option Nat
  | 0, _ => none
  | b + 1, cur => if test cur then some cur else scanLevels test b (cur + 1)

/-- What one parse_input call prints: the length line (level found for the
CP-application count of the guess), the IP line (level found for the initial
prefix), and one optional line per CP transition (the transition target with
the first level of the context whose bucket holds it). -/
structure ParseReport where
  lnReport : Option Nat
  ipReport : Option Nat
  cpReports : List (Option (Char × Nat))
deriving DecidableEq

/-- Membership of the guess's CP-application count in the ln bucket of a
level: parse_input computes check_len = len(guess) - (ngram - 1) as a Python
int and tests it against the stored counts. -/
def lnHasLen (g : Grammar) (lvl : Nat) (guess : Str) : Bool :=
  (lnBucket g lvl).any (fun k => (k : Int) = (guess.length : Int) - ((g.ngram : Int) - 1))

/-- Membership of the guess's initial prefix in the ip bucket of a level. -/
def ipHasPref (g : Grammar) (lvl : Nat) (guess : Str) : Bool :=
  (ipBucket g lvl).any (fun p => p == guess.take (g.ngram - 1))

/-- One CP line of parse_input: the first level bucket of the context, in
stored order, that holds the next character; nothing is printed when no
bucket holds it.  none for the whole call models the Python KeyError when
the context is missing from the cp table. -/
def cpReportAt (g : Grammar) (guess : Str) (i : Nat) : Option (Option (Char × Nat)) :=
  match g.cp.find? (fun e => e.1 == (guess.drop i).take (g.ngram - 1)) with
  | none => none
  | some e =>
    match guess[i + (g.ngram - 1)]? with
    | none => some none
    | some c =>
      match e.2.find? (fun b => b.2.contains c) with
      | some b => some (some (c, b.1))
      | none => some none

/-- The CP loop of parse_input over i in range(0, len(guess) - (ngram - 1)),
aborting (none) when a context lookup raises. -/
def cpReportsList (g : Grammar) (guess : Str) : Option (List (Option (Char × Nat))) :=
  ((List.range (guess.length - (g.ngram - 1))).mapM (cpReportAt g guess))

/-- MarkovCracker.parse_input: report the first level in range(0, max_level)
whose ln bucket holds the guess's CP-application count, the first level in
range(0, max_level) whose ip bucket holds the initial prefix, and the per
transition CP lines.  No end-prefix information is computed.  none models
the uncaught KeyError on a missing CP context. -/
def parseInput (g : Grammar) (guess : Str) : Option ParseReport :=
  match cpReportsList g guess with
  | none => none
  | some cps =>
    some ⟨scanLevels (fun lvl => lnHasLen g lvl guess) g.maxLevel 0,
          scanLevels (fun lvl => ipHasPref g lvl guess) g.maxLevel 0,
          cps⟩

/-! ## Concrete example models used by witnesses and counterexamples -/

/-- A two-symbol bigram model: one IP at level 0, one trained length (one CP
application) at level 0, CP from context a to a and b at level 0. -/
def exampleG : Grammar :=
  { maxLevel := 1, ngram := 2,
    ip := [[['a']], []],
    ep := [],
    cp := [(['a'], [(0, ['a', 'b'])])],
    ln := [[1], []] }

/-- The same model with a different ep table. -/
def exampleGEp : Grammar :=
  { maxLevel := 1, ngram := 2,
    ip := [[['a']], []],
    ep := [(['b'], 1)],
    cp := [(['a'], [(0, ['a', 'b'])])],
    ln := [[1], []] }

/-- Cracker context over exampleG with the start pointers computed by
__init__ (both level 0). -/
def exampleCtx : Ctx := ⟨exampleG, 0, 0⟩

/-- Cracker context over exampleGEp. -/
def exampleCtxEp : Ctx := ⟨exampleGEp, 0, 0⟩

/-- A model configuration for session checks. -/
def exampleCfg : Cfg := ⟨"0.1", "Default", "uuid-1"⟩

/-- A trigram model whose only trained length sits at level max_level, used
against parse_input. -/
def exampleG6 : Grammar :=
  { maxLevel := 1, ngram := 3,
    ip := [[['a', 'b']], []],
    ep := [(['c', 'd'], 0)],
    cp := [(['a', 'b'], [(0, ['c'])]), (['b', 'c'], [(0, ['d'])])],
    ln := [[], [2]] }

/-- A grammar whose ip table is non-empty only at level max_level while ln
is non-empty at level 0. -/
def exampleGOnlyMax : Grammar :=
  { maxLevel := 1, ngram := 2,
    ip := [[], [['a']]],
    ep := [],
    cp := [(['a'], [(0, ['a'])])],
    ln := [[1], []] }

/-- The same grammar with another ep table: used to state that enumeration
never consults ep. -/
def withEp (g : Grammar) (e : List (Str × Nat)) : Grammar :=
  { g with ep := e }

/-- The grammar loaded in the C2 witness scenario. -/
def exampleLoadedG : Grammar :=
  { maxLevel := 2, ngram := 3,
    ip := [[['a', 'b']], [], []],
    ep := [(['c', 'd'], 0)],
    cp := [(['a', 'b'], [(0, ['c'])])],
    ln := [[1], [2], []] }

/-! ## Helper lemmas -/

/-- Reading a bucket list after bucketAppend: the targeted in-range level
gains the appended element, every other level is unchanged. -/
theorem bucketAppend_getD (buckets : List (List α)) (lvl lvl' : Nat) (x : α)
    (h : lvl < buckets.length) :
    (bucketAppend buckets lvl x).getD lvl' [] =
      if lvl = lvl' then buckets.getD lvl' [] ++ [x] else buckets.getD lvl' [] := by
  unfold bucketAppend
  rcases eq_or_ne lvl lvl' with rfl | hne
  · simp [List.getD_eq_getElem?_getD, List.getElem?_set, h]
  · simp [List.getD_eq_getElem?_getD, List.getElem?_set, hne]

/-- Membership in the length buckets built by the _load_length loop: k lies
in the bucket of a level exactly when it was already there or some remaining
line carries that level at a long-enough running length that stores k. -/
theorem loadLNAux_mem (maxLevel minSize : Nat) (lines : List Int) :
    ∀ (buckets : List (List Nat)) (c : Nat) (result : List (List Nat)),
      buckets.length = maxLevel + 1 →
      loadLNAux maxLevel minSize buckets c lines = some result →
      ∀ (lvl k : Nat),
        (k ∈ result.getD lvl [] ↔ k ∈ buckets.getD lvl [] ∨
          ∃ i, i < lines.length ∧ lines[i]? = some ((lvl : Nat) : Int) ∧
               minSize ≤ c + i ∧ k = c + i - (minSize - 1)) := by
  induction lines with
  | nil =>
    intro buckets c result hlen hload lvl k
    simp only [loadLNAux] at hload
    cases hload
    simp
  | cons l0 rest ih =>
    intro buckets c result hlen hload lvl k
    simp only [loadLNAux] at hload
    split at hload
    · exact absurd hload (by simp)
    · rename_i hrange
      rw [not_or] at hrange
      obtain ⟨hr0, hr1⟩ := hrange
      rw [not_lt] at hr0
      rw [not_lt] at hr1
      by_cases hc : minSize ≤ c
      · simp only [if_pos hc] at hload
        have hlen' : (bucketAppend buckets l0.toNat (c - (minSize - 1))).length
            = maxLevel + 1 := by
          simp [bucketAppend, hlen]
        have hiff := ih (bucketAppend buckets l0.toNat (c - (minSize - 1)))
          (c + 1) result hlen' hload lvl k
        rw [hiff]
        have htn : l0.toNat < buckets.length := by omega
        rw [bucketAppend_getD _ _ _ _ htn]
        constructor
        · rintro (hmem | ⟨j, hj, hget, hms, hk⟩)
          · by_cases hl : l0.toNat = lvl
            · rw [if_pos hl] at hmem
              rcases List.mem_append.1 hmem with hmem | hmem
              · exact Or.inl hmem
              · refine Or.inr ⟨0, by simp, by simp; omega, by simpa using hc,
                  by simpa using List.mem_singleton.1 hmem⟩
            · rw [if_neg hl] at hmem
              exact Or.inl hmem
          · exact Or.inr ⟨j + 1, by simpa using hj, by simpa using hget,
              by omega, by rw [hk]; congr 1; omega⟩
        · rintro (hmem | ⟨i, hi, hget, hms, hk⟩)
          · by_cases hl : l0.toNat = lvl
            · rw [if_pos hl]
              exact Or.inl (List.mem_append.2 (Or.inl hmem))
            · rw [if_neg hl]
              exact Or.inl hmem
          · cases i with
            | zero =>
              have hl0 : l0 = ((lvl : Nat) : Int) := by simpa using hget
              have hl : l0.toNat = lvl := by omega
              rw [if_pos hl]
              exact Or.inl (List.mem_append.2 (Or.inr (by simp; omega)))
            | succ j =>
              exact Or.inr ⟨j, by simpa using hi, by simpa using hget,
                by omega, by rw [hk]; congr 1; omega⟩
      · simp only [if_neg hc] at hload
        have hiff := ih buckets (c + 1) result hlen hload lvl k
        rw [hiff]
        constructor
        · rintro (hmem | ⟨j, hj, hget, hms, hk⟩)
          · exact Or.inl hmem
          · exact Or.inr ⟨j + 1, by simpa using hj, by simpa using hget,
              by omega, by rw [hk]; congr 1; omega⟩
        · rintro (hmem | ⟨i, hi, hget, hms, hk⟩)
          · exact Or.inl hmem
          · cases i with
            | zero => omega
            | succ j =>
              exact Or.inr ⟨j, by simpa using hi, by simpa using hget,
                by omega, by rw [hk]; congr 1; omega⟩

/-- A successful load_rules obtained its length table from _load_length with
min_size = ngram. -/
theorem loadRules_ln_eq (ngram maxLevel : Nat) (ipL epL cpL : List (Int × Str))
    (lnL : List Int) (g : Grammar)
    (h : loadRules ngram maxLevel ipL epL cpL lnL = some g) :
    loadLN maxLevel ngram lnL = some g.ln := by
  unfold loadRules at h
  split at h
  · exact absurd h (by simp)
  · split at h
    · exact absurd h (by simp)
    · split at h
      · exact absurd h (by simp)
      · split at h
        · exact absurd h (by simp)
        · rename_i hln
          cases h
          exact hln

/-- C1: the claim reads that MarkovCracker construction fails exactly when
IP or LN has no non-empty bucket, and in particular succeeds when the only
non-empty bucket sits at level max_level.  The code scans range(0,
max_level), which misses level max_level: on a grammar whose ip table is
non-empty only at level max_level (and whose ln table is fine),
_find_first_object raises and construction fails, against the claim, the
loader that accepts levels up to max_level inclusive, and the function's
own documentation. -/
theorem claimC1_find_first_object_misses_max_level :
    startPointers exampleGOnlyMax = none ∧
    exampleGOnlyMax.ip.getD exampleGOnlyMax.maxLevel [] ≠ [] ∧
    exampleGOnlyMax.ln.getD 0 [] ≠ [] := by decide

/-- C2 (counterexample): with ngram 3 and LN.level lines giving level 0 to
lengths 1, 2, 3, the claim demands that length 2 = ngram - 1 be represented
in bucket 0 with k = 2 - (3 - 1) = 0; the loaded table is [[1], [], []], in
which it is not. -/
theorem claimC2_counterexample :
    loadLN 2 3 [0, 0, 0] = some [[1], [], []] ∧
    (2 - (3 - 1)) ∉ (([[1], [], []] : List (List Nat)).getD 0 []) := by decide

/-- C2 (amended): after load_rules, bucket ln[level] holds the
CP-application count k = length - (ngram - 1) for exactly those lengths
that are at least ngram (not ngram - 1 as claimed) whose LN.level line
carries that level; the length of line i, counting from 1, is i + 1. -/
theorem claimC2_ln_represents_lengths_ge_ngram
    (ngram maxLevel : Nat) (ipL epL cpL : List (Int × Str)) (lnL : List Int)
    (g : Grammar) (hn : 2 ≤ ngram)
    (h : loadRules ngram maxLevel ipL epL cpL lnL = some g) :
    ∀ lvl k, k ∈ g.ln.getD lvl [] ↔
      ∃ i, i < lnL.length ∧ lnL[i]? = some ((lvl : Nat) : Int) ∧
           ngram ≤ i + 1 ∧ k = (i + 1) - (ngram - 1) := by
  have hln := loadRules_ln_eq ngram maxLevel ipL epL cpL lnL g h
  intro lvl k
  have hmem := loadLNAux_mem maxLevel ngram lnL
    (List.replicate (maxLevel + 1) []) 1 g.ln (by simp) hln lvl k
  rw [hmem]
  have hrep : ((List.replicate (maxLevel + 1) ([] : List Nat)).getD lvl []) = [] := by
    rcases lt_or_le lvl (maxLevel + 1) with hlt | hge
    · simp [List.getD_eq_getElem?_getD, List.getElem?_replicate, hlt]
    · simp [List.getD_eq_getElem?_getD, List.getElem?_replicate, Nat.not_lt.2 hge]
  rw [hrep]
  constructor
  · rintro (hmem | ⟨i, hi, hget, hms, hk⟩)
    · exact absurd hmem (List.not_mem_nil k)
    · exact ⟨i, hi, hget, by omega, by omega⟩
  · rintro ⟨i, hi, hget, hms, hk⟩
    exact Or.inr ⟨i, hi, hget, by omega, by omega⟩


/-- C2 witness: a concrete load in which length 3 (line index 2, level 0)
is stored as k = 1 in bucket 0. -/
theorem claimC2_witness : 1 ∈ exampleLoadedG.ln.getD 0 [] := by
  have h := claimC2_ln_represents_lengths_ge_ngram 3 2
    [(0, ['a', 'b'])] [(0, ['c', 'd'])] [(0, ['a', 'b', 'c'])] [0, 0, 0, 1]
    exampleLoadedG (by decide) (by decide)
  exact (h 0 1).mpr ⟨2, by decide, by decide, by decide, by decide⟩

/-- An out-of-range level anywhere in the remaining IP lines aborts the
load. -/
theorem loadIPAux_none_of_bad (maxLevel : Nat) (lines : List (Int × Str)) :
    ∀ buckets, (∃ p ∈ lines, p.1 < 0 ∨ p.1 > (maxLevel : Int)) →
      loadIPAux maxLevel buckets lines = none := by
  induction lines with
  | nil => rintro buckets ⟨p, hp, _⟩; exact absurd hp (List.not_mem_nil p)
  | cons l0 rest ih =>
    rintro buckets ⟨p, hp, hbad⟩
    obtain ⟨lvl, s⟩ := l0
    simp only [loadIPAux]
    rcases List.mem_cons.1 hp with rfl | hp
    · rw [if_pos hbad]
    · split
      · rfl
      · exact ih _ ⟨p, hp, hbad⟩

/-- An out-of-range level anywhere in the remaining EP lines aborts the
load. -/
theorem loadEPAux_none_of_bad (maxLevel : Nat) (lines : List (Int × Str)) :
    ∀ acc, (∃ p ∈ lines, p.1 < 0 ∨ p.1 > (maxLevel : Int)) →
      loadEPAux maxLevel acc lines = none := by
  induction lines with
  | nil => rintro acc ⟨p, hp, _⟩; exact absurd hp (List.not_mem_nil p)
  | cons l0 rest ih =>
    rintro acc ⟨p, hp, hbad⟩
    obtain ⟨lvl, s⟩ := l0
    simp only [loadEPAux]
    rcases List.mem_cons.1 hp with rfl | hp
    · rw [if_pos hbad]
    · split
      · rfl
      · exact ih _ ⟨p, hp, hbad⟩

/-- An out-of-range level anywhere in the remaining CP lines aborts the
load. -/
theorem loadCPAux_none_of_bad (maxLevel : Nat) (lines : List (Int × Str)) :
    ∀ acc, (∃ p ∈ lines, p.1 < 0 ∨ p.1 > (maxLevel : Int)) →
      loadCPAux maxLevel acc lines = none := by
  induction lines with
  | nil => rintro acc ⟨p, hp, _⟩; exact absurd hp (List.not_mem_nil p)
  | cons l0 rest ih =>
    rintro acc ⟨p, hp, hbad⟩
    obtain ⟨lvl, s⟩ := l0
    simp only [loadCPAux]
    rcases List.mem_cons.1 hp with rfl | hp
    · rw [if_pos hbad]
    · split
      · rfl
      · split
        · rfl
        · exact ih _ ⟨p, hp, hbad⟩

/-- An out-of-range level anywhere in the remaining LN lines aborts the
load. -/
theorem loadLNAux_none_of_bad (maxLevel minSize : Nat) (lines : List Int) :
    ∀ buckets c, (∃ v ∈ lines, v < 0 ∨ v > (maxLevel : Int)) →
      loadLNAux maxLevel minSize buckets c lines = none := by
  induction lines with
  | nil => rintro buckets c ⟨v, hv, _⟩; exact absurd hv (List.not_mem_nil v)
  | cons l0 rest ih =>
    rintro buckets c ⟨v, hv, hbad⟩
    simp only [loadLNAux]
    rcases List.mem_cons.1 hv with rfl | hv
    · rw [if_pos hbad]
    · split
      · rfl
      · exact ih _ _ ⟨v, hv, hbad⟩

/-- C8: load_rules fails whenever any line of IP.level, EP.level, CP.level
or LN.level carries a level strictly below 0 or strictly above max_level;
no model containing such a line is accepted. -/
theorem claimC8_out_of_range_level_rejected
    (ngram maxLevel : Nat) (ipL epL cpL : List (Int × Str)) (lnL : List Int)
    (hbad : (∃ p ∈ ipL, p.1 < 0 ∨ p.1 > (maxLevel : Int)) ∨
            (∃ p ∈ epL, p.1 < 0 ∨ p.1 > (maxLevel : Int)) ∨
            (∃ p ∈ cpL, p.1 < 0 ∨ p.1 > (maxLevel : Int)) ∨
            (∃ v ∈ lnL, v < 0 ∨ v > (maxLevel : Int))) :
    loadRules ngram maxLevel ipL epL cpL lnL = none := by
  unfold loadRules
  rcases hbad with hbad | hbad | hbad | hbad
  · rw [show loadIP maxLevel ipL = none from loadIPAux_none_of_bad _ _ _ hbad]
  · cases hip : loadIP maxLevel ipL
    · rfl
    · rw [show loadEP maxLevel epL = none from loadEPAux_none_of_bad _ _ _ hbad]
  · cases hip : loadIP maxLevel ipL
    · rfl
    · cases hep : loadEP maxLevel epL
      · rfl
      · rw [show loadCP maxLevel cpL = none from loadCPAux_none_of_bad _ _ _ hbad]
  · cases hip : loadIP maxLevel ipL
    · rfl
    · cases hep : loadEP maxLevel epL
      · rfl
      · cases hcp : loadCP maxLevel cpL
        · rfl
        · rw [show loadLN maxLevel ngram lnL = none from
            loadLNAux_none_of_bad _ _ _ _ _ hbad]

/-- C8 witness: a CP line at level 11 with max_level 10 makes the whole
load fail. -/
theorem claimC8_witness :
    loadRules 2 10 [(0, ['a'])] [(0, ['a'])] [(11, ['a', 'b'])] [0, 0] = none :=
  claimC8_out_of_range_level_rejected 2 10 _ _ _ _
    (Or.inr (Or.inr (Or.inl ⟨(11, ['a', 'b']), by decide, by decide⟩)))

/-- Advancing a pointer never changes the target level: the scan helpers and
the guess-structure rebuild leave targetLevel untouched. -/
theorem increaseIpState_targetLevel (c : Ctx) (s : MCState) (wt : Int)
    (s1 : MCState) (h : increaseIpState c s wt = some s1) :
    s1.targetLevel = s.targetLevel := by
  unfold increaseIpState at h
  split at h
  · cases h; rfl
  · exact absurd h (by simp)

/-- Advancing the length pointer never changes the target level. -/
theorem increaseLenState_targetLevel (c : Ctx) (s : MCState) (s1 : MCState)
    (h : increaseLenState c s = some s1) : s1.targetLevel = s.targetLevel := by
  unfold increaseLenState at h
  split at h
  · cases h; rfl
  · exact absurd h (by simp)

/-- The level-increase branch raises the target level by exactly one. -/
theorem bumpTarget_targetLevel (c : Ctx) (s : MCState) :
    (bumpTarget c s).targetLevel = s.targetLevel + 1 := rfl

/-- A guess emitted by the draw-and-increase loop is tagged with the target
level of the state it leaves behind, which is at least the entry target
level, and the loop leaves an active guess structure behind. -/
theorem guessLoop_emit (c : Ctx) : ∀ (fuel : Nat) (s : MCState) (gs : Str)
    (t : Int) (s1 : MCState), guessLoop c fuel s = (StepResult.emit gs t, s1) →
    s.targetLevel ≤ t ∧ s1.targetLevel = t ∧ s1.curGuess ≠ none := by
  intro fuel
  induction fuel with
  | zero => intro s gs t s1 h; exact absurd h (by simp [guessLoop])
  | succ fuel ih =>
    intro s gs t s1 h
    rw [guessLoop] at h
    rcases hcg : s.curGuess with _ | l
    · rw [hcg] at h; exact absurd h (by simp)
    · rw [hcg] at h
      rcases l with _ | ⟨g0, rest⟩
      · rcases hip : increaseIpState c s (s.targetLevel - (s.curLen.1 : Int))
          with _ | s2
        · rw [hip] at h
          rcases hlen : increaseLenState c s with _ | s2
          · rw [hlen] at h
            rcases hinc : s.increase with _ | _
            · rw [hinc] at h
              simp only [Bool.false_eq_true, if_false] at h
              exact absurd h (by simp)
            · rw [hinc] at h
              simp only [if_true] at h
              obtain ⟨h1, h2, h3⟩ := ih (bumpTarget c s) gs t s1 h
              rw [bumpTarget_targetLevel] at h1
              exact ⟨by omega, h2, h3⟩
          · rw [hlen] at h
            obtain ⟨h1, h2, h3⟩ := ih s2 gs t s1 h
            rw [increaseLenState_targetLevel c s s2 hlen] at h1
            exact ⟨h1, h2, h3⟩
        · rw [hip] at h
          obtain ⟨h1, h2, h3⟩ := ih s2 gs t s1 h
          rw [increaseIpState_targetLevel c s _ s2 hip] at h1
          exact ⟨h1, h2, h3⟩
      · simp only [Prod.mk.injEq, StepResult.emit.injEq] at h
        obtain ⟨⟨rfl, rfl⟩, rfl⟩ := h
        exact ⟨le_refl _, rfl, by simp⟩

/-- When the loop reports exhaustion it has cleared the guess structure. -/
theorem guessLoop_exhausted (c : Ctx) : ∀ (fuel : Nat) (s s1 : MCState),
    guessLoop c fuel s = (StepResult.exhausted, s1) → s1.curGuess = none := by
  intro fuel
  induction fuel with
  | zero => intro s s1 h; exact absurd h (by simp [guessLoop])
  | succ fuel ih =>
    intro s s1 h
    rw [guessLoop] at h
    rcases hcg : s.curGuess with _ | l
    · rw [hcg] at h; exact absurd h (by simp)
    · rw [hcg] at h
      rcases l with _ | ⟨g0, rest⟩
      · rcases hip : increaseIpState c s (s.targetLevel - (s.curLen.1 : Int))
          with _ | s2
        · rw [hip] at h
          rcases hlen : increaseLenState c s with _ | s2
          · rw [hlen] at h
            rcases hinc : s.increase with _ | _
            · rw [hinc] at h
              simp only [Bool.false_eq_true, if_false, Prod.mk.injEq] at h
              rw [← h.2]
            · rw [hinc] at h
              simp only [if_true] at h
              exact ih _ _ h
          · rw [hlen] at h
            exact ih _ _ h
        · rw [hip] at h
          exact ih _ _ h
      · exact absurd h (by simp)

/-- A next_guess call that returns None leaves no active guess structure
behind. -/
theorem nextGuess_exhausted (c : Ctx) (fuel : Nat) (lvl : Option Int)
    (s s1 : MCState) (h : nextGuess c fuel lvl s = (StepResult.exhausted, s1)) :
    s1.curGuess = none := by
  unfold nextGuess at h
  rcases hcg : s.curGuess with _ | l
  · rw [hcg] at h
    rcases hip : initPass c lvl with _ | s2
    · rw [hip] at h
      simp only [Prod.mk.injEq] at h
      rw [← h.2]
      exact hcg
    · rw [hip] at h
      exact guessLoop_exhausted c fuel s2 s1 h
  · rw [hcg] at h
    exact guessLoop_exhausted c fuel s s1 h

/-- A next_guess call that emits leaves a state whose target level is the
emitted one and whose guess structure is active. -/
theorem nextGuess_emit_state (c : Ctx) (fuel : Nat) (lvl : Option Int)
    (s s1 : MCState) (gs : Str) (t : Int)
    (h : nextGuess c fuel lvl s = (StepResult.emit gs t, s1)) :
    s1.targetLevel = t ∧ s1.curGuess ≠ none := by
  unfold nextGuess at h
  rcases hcg : s.curGuess with _ | l
  · rw [hcg] at h
    rcases hip : initPass c lvl with _ | s2
    · rw [hip] at h; exact absurd h (by simp)
    · rw [hip] at h
      exact (guessLoop_emit c fuel s2 gs t s1 h).2
  · rw [hcg] at h
    exact (guessLoop_emit c fuel s gs t s1 h).2

/-- C3: across any two consecutive next_guess calls that both emit, the
total level attached to the first guess is at most the total level attached
to the second, whatever level arguments the calls pass: the target level is
re-read only when no guess structure is active, and emitting always leaves
one active, so within a pass the target only ever grows. -/
theorem claimC3_target_level_monotone (c : Ctx) (f1 f2 : Nat)
    (l1 l2 : Option Int) (s s1 s2 : MCState) (g1 g2 : Str) (t1 t2 : Int)
    (h1 : nextGuess c f1 l1 s = (StepResult.emit g1 t1, s1))
    (h2 : nextGuess c f2 l2 s1 = (StepResult.emit g2 t2, s2)) :
    t1 ≤ t2 := by
  obtain ⟨ht1, hcg1⟩ := nextGuess_emit_state c f1 l1 s s1 g1 t1 h1
  unfold nextGuess at h2
  rcases hcg : s1.curGuess with _ | l
  · exact absurd hcg hcg1
  · rw [hcg] at h2
    have := (guessLoop_emit c f2 s1 g2 t2 s2 h2).1
    omega

/-- C3 witness: on the example bigram model the first two automatic-mode
guesses are both emitted at target level 0. -/
theorem claimC3_witness : (0 : Int) ≤ 0 :=
  claimC3_target_level_monotone exampleCtx 10 10 none none freshState
    ⟨0, true, (0, 0), (0, 0), some [['a', 'b']]⟩
    ⟨0, true, (0, 0), (0, 0), some []⟩
    ['a', 'a'] ['a', 'b'] 0 0 (by decide) (by decide)

/-- C9: save_session fails exactly when no guess structure is active; the
fresh cracker state has none, and a fixed-level next_guess call that
returns None clears it, so saving is possible only once some call has
installed a guess structure. -/
theorem claimC9_save_needs_active_guess :
    (∀ (cfg : Cfg) (s : MCState), saveSession cfg s = none ↔ s.curGuess = none) ∧
    freshState.curGuess = none ∧
    (∀ (cfg : Cfg) (c : Ctx) (fuel : Nat) (l : Int) (s s1 : MCState),
      nextGuess c fuel (some l) s = (StepResult.exhausted, s1) →
      saveSession cfg s1 = none) := by
  refine ⟨?_, rfl, ?_⟩
  · intro cfg s
    unfold saveSession
    rcases hcg : s.curGuess with _ | l <;> simp
  · intro cfg c fuel l s s1 h
    unfold saveSession
    rw [nextGuess_exhausted c fuel (some l) s s1 h]

/-- C9 witness: with the example model, saving the fresh state fails, and
after the fixed-level pass at level 0 is exhausted (third call below)
saving fails again. -/
theorem claimC9_witness :
    saveSession exampleCfg freshState = none ∧
    saveSession exampleCfg
      ⟨0, false, (0, 0), (0, 0), none⟩ = none := by
  constructor
  · exact (claimC9_save_needs_active_guess.1 exampleCfg freshState).mpr rfl
  · exact claimC9_save_needs_active_guess.2.2 exampleCfg exampleCtx 10 0
      ⟨0, false, (0, 0), (0, 0), some []⟩ _ (by decide)

/-- C5: load_session rejects a well-formed session file exactly when its
saved version, rule name or UUID differs from the current model, and when
all three agree it restores the saved target level, increase flag, length
pointer, IP pointer and walker state.  Well-formed means the saved pointers
index into the grammar, which is the case for every file written by
save_session against the same model. -/
theorem claimC5_load_session_sanity (cfg : Cfg) (g : Grammar) (f : SessionFile)
    (hip : ((g.ip.get? f.curIp.1).bind (fun b => b.get? f.curIp.2)).isSome)
    (hln : ((g.ln.get? f.curLen.1).bind (fun b => b.get? f.curLen.2)).isSome) :
    (loadSession cfg g f = none ↔
      (f.version ≠ cfg.version ∨ f.ruleName ≠ cfg.ruleName ∨ f.uuid ≠ cfg.uuid)) ∧
    (f.version = cfg.version → f.ruleName = cfg.ruleName → f.uuid = cfg.uuid →
      loadSession cfg g f =
        some ⟨f.targetLevel, f.increase, f.curLen, f.curIp, some f.parseTree⟩) := by
  obtain ⟨x, hx⟩ := Option.isSome_iff_exists.1 hip
  obtain ⟨y, hy⟩ := Option.isSome_iff_exists.1 hln
  unfold loadSession
  by_cases h1 : f.version = cfg.version
  · by_cases h2 : f.ruleName = cfg.ruleName
    · by_cases h3 : f.uuid = cfg.uuid
      · simp only [h1, h2, h3, ne_eq, not_true_eq_false, if_false, hx, hy]
        simp
      · simp only [h1, h2, ne_eq, not_true_eq_false, if_false, h3,
          not_false_eq_true, if_true]
        simp [h3]
    · simp only [h1, ne_eq, not_true_eq_false, if_false, h2,
        not_false_eq_true, if_true]
      simp [h2]
  · simp only [ne_eq, h1, not_false_eq_true, if_true]
    simp [h1]

/-- C5 witness: over the example model, a session file with a foreign UUID
is rejected, and the same file with the matching UUID is restored field by
field. -/
theorem claimC5_witness :
    loadSession exampleCfg exampleG
      ⟨"0.1", "Default", "uuid-2", 0, true, (0, 0), (0, 0), [['a', 'b']]⟩ = none ∧
    loadSession exampleCfg exampleG
      ⟨"0.1", "Default", "uuid-1", 0, true, (0, 0), (0, 0), [['a', 'b']]⟩ =
      some ⟨0, true, (0, 0), (0, 0), some [['a', 'b']]⟩ := by
  constructor
  · exact (claimC5_load_session_sanity exampleCfg exampleG _
      (by decide) (by decide)).1.mpr (by decide)
  · exact (claimC5_load_session_sanity exampleCfg exampleG _
      (by decide) (by decide)).2 rfl rfl rfl

/-- Loading a file just written by save_session against the same model and
configuration restores exactly the state that was saved. -/
theorem saveLoad_roundtrip (cfg : Cfg) (g : Grammar) (s s1 : MCState)
    (f : SessionFile) (hs : saveSession cfg s = some f)
    (hl : loadSession cfg g f = some s1) : s1 = s := by
  obtain ⟨tl, inc, cl, ci, cg⟩ := s
  rcases cg with _ | gs
  · exact absurd hs (by simp [saveSession])
  · unfold saveSession at hs
    simp only [Option.some.injEq] at hs
    subst hs
    unfold loadSession at hl
    simp only [ne_eq, not_true_eq_false, if_false] at hl
    split at hl
    · simp only [Option.some.injEq] at hl
      rw [← hl]
    · exact absurd hl (by simp)

/-- Splitting an automatic-mode run: when the first m calls all emit, the
run of m + n calls is the m-call run followed by the n-call run from the
state it reached. -/
theorem runAuto_split (c : Ctx) (fuel : Nat) : ∀ (m n : Nat) (s : MCState)
    (l1 : List (Str × Int)) (s1 : MCState),
    runAuto c fuel m s = (l1, s1) → l1.length = m →
    runAuto c fuel (m + n) s =
      (l1 ++ (runAuto c fuel n s1).1, (runAuto c fuel n s1).2) := by
  intro m
  induction m with
  | zero =>
    intro n s l1 s1 hrun hlen
    simp only [runAuto] at hrun
    obtain ⟨rfl, rfl⟩ := Prod.mk.injEq .. ▸ hrun
    simp only [Nat.zero_add, List.nil_append]
  | succ m ih =>
    intro n s l1 s1 hrun hlen
    rw [runAuto] at hrun
    rcases hng : nextGuess c fuel none s with ⟨r, s2⟩
    rw [hng] at hrun
    have harr : m + 1 + n = (m + n) + 1 := by omega
    rw [harr, runAuto, hng]
    rcases r with ⟨gs, t⟩ | _ | _
    · dsimp only at hrun ⊢
      rcases hrest : runAuto c fuel m s2 with ⟨l2, s3⟩
      rw [hrest] at hrun
      dsimp only at hrun
      simp only [Prod.mk.injEq] at hrun
      obtain ⟨rfl, rfl⟩ := hrun
      simp only [List.length_cons] at hlen
      rw [ih n s2 l2 s3 hrest (by omega)]
      simp
    · dsimp only at hrun
      simp only [Prod.mk.injEq] at hrun
      obtain ⟨rfl, _⟩ := hrun
      simp at hlen
    · dsimp only at hrun
      simp only [Prod.mk.injEq] at hrun
      obtain ⟨rfl, _⟩ := hrun
      simp at hlen

/-- C4: if an automatic-mode run of m calls emits m guesses, the state is
saved, and a fresh cracker over the same model restores the session
(construction with restore), then the next n guesses of the restored
cracker are exactly what the uninterrupted run of m + n calls emits after
its first m guesses. -/
theorem claimC4_save_restore_resumes (c : Ctx) (cfg : Cfg) (fuel m n : Nat)
    (s0 s s1 : MCState) (l1 : List (Str × Int)) (f : SessionFile)
    (hrun : runAuto c fuel m s0 = (l1, s))
    (hm : l1.length = m)
    (hsave : saveSession cfg s = some f)
    (hload : loadSession cfg c.g f = some s1) :
    (runAuto c fuel (m + n) s0).1 = l1 ++ (runAuto c fuel n s1).1 := by
  rw [saveLoad_roundtrip cfg c.g s s1 f hsave hload]
  rw [runAuto_split c fuel m n s0 l1 s hrun hm]

/-- C4 witness: on the example model, save after one guess and restore; one
further restored guess extends the run to the first two guesses of the
uninterrupted run. -/
theorem claimC4_witness :
    (runAuto exampleCtx 10 2 freshState).1 =
      [(['a', 'a'], 0)] ++ (runAuto exampleCtx 10 1
        ⟨0, true, (0, 0), (0, 0), some [['a', 'b']]⟩).1 :=
  claimC4_save_restore_resumes exampleCtx exampleCfg 10 1 1 freshState
    ⟨0, true, (0, 0), (0, 0), some [['a', 'b']]⟩
    ⟨0, true, (0, 0), (0, 0), some [['a', 'b']]⟩
    [(['a', 'a'], 0)]
    ⟨"0.1", "Default", "uuid-1", 0, true, (0, 0), (0, 0), [['a', 'b']]⟩
    (by decide) (by decide) (by decide) (by decide)

/-- A fixed-level next_guess call on a state with no active guess structure
either bails out (level below the lowest possible) or proceeds from the
start state, which overwrites every mutable field; the prior state is
irrelevant beyond its cleared guess structure. -/
theorem nextGuess_fixed_of_none (c : Ctx) (fuel : Nat) (l : Int) (s : MCState)
    (hs : s.curGuess = none) :
    nextGuess c fuel (some l) s =
      if ((c.startLn : Int) + (c.startIp : Int)) > l then (StepResult.exhausted, s)
      else guessLoop c fuel (startState c false l) := by
  unfold nextGuess
  rw [hs]
  unfold initPass
  by_cases hb : ((c.startLn : Int) + (c.startIp : Int)) > l
  · simp only [if_pos hb]
  · simp only [if_neg hb]

/-- Fixed-level runs started from any two states with no active guess
structure emit the same sequence. -/
theorem runFixed_emissions_eq (c : Ctx) (fuel : Nat) (l : Int) (n : Nat)
    (s t : MCState) (hs : s.curGuess = none) (ht : t.curGuess = none) :
    (runFixed c fuel l n s).1 = (runFixed c fuel l n t).1 := by
  cases n with
  | zero => rfl
  | succ n =>
    rw [runFixed, runFixed]
    rw [nextGuess_fixed_of_none c fuel l s hs, nextGuess_fixed_of_none c fuel l t ht]
    by_cases hb : ((c.startLn : Int) + (c.startIp : Int)) > l
    · simp only [if_pos hb]
    · rcases hloop : guessLoop c fuel (startState c false l) with ⟨r, s1⟩
      simp only [if_neg hb, hloop]

/-- C10: after a fixed-level next_guess call reports exhaustion, the guess
structure is cleared, and a subsequent run of fixed-level calls at that
level emits exactly the same sequence as a run from the fresh cracker
state: exhaustion in fixed-level mode resets the walker. -/
theorem claimC10_fixed_level_exhaustion_resets (c : Ctx) (fuel fuel2 : Nat)
    (l : Int) (n : Nat) (u u1 : MCState)
    (hex : nextGuess c fuel (some l) u = (StepResult.exhausted, u1)) :
    (runFixed c fuel2 l n u1).1 = (runFixed c fuel2 l n freshState).1 :=
  runFixed_emissions_eq c fuel2 l n u1 freshState
    (nextGuess_exhausted c fuel (some l) u u1 hex) rfl

/-- C10 witness: on the example model the fixed-level pass at level 0 emits
two guesses and is then exhausted; the rerun after exhaustion emits the
same two guesses as the run from the fresh state. -/
theorem claimC10_witness :
    (runFixed exampleCtx 10 0 3 ⟨0, false, (0, 0), (0, 0), none⟩).1 =
      (runFixed exampleCtx 10 0 3 freshState).1 :=
  claimC10_fixed_level_exhaustion_resets exampleCtx 10 10 0 3
    ⟨0, false, (0, 0), (0, 0), some []⟩ ⟨0, false, (0, 0), (0, 0), none⟩
    (by decide)

/-- Changing ep leaves max_level unchanged. -/
theorem withEp_maxLevel (g : Grammar) (e : List (Str × Nat)) :
    (withEp g e).maxLevel = g.maxLevel := rfl

/-- Changing ep leaves ngram unchanged. -/
theorem withEp_ngram (g : Grammar) (e : List (Str × Nat)) :
    (withEp g e).ngram = g.ngram := rfl

/-- Changing ep leaves the ip buckets unchanged. -/
theorem ipBucket_withEp (g : Grammar) (e : List (Str × Nat)) (lvl : Nat) :
    ipBucket (withEp g e) lvl = ipBucket g lvl := rfl

/-- Changing ep leaves the ln buckets unchanged. -/
theorem lnBucket_withEp (g : Grammar) (e : List (Str × Nat)) (lvl : Nat) :
    lnBucket (withEp g e) lvl = lnBucket g lvl := rfl

/-- Changing ep leaves the cp buckets unchanged. -/
theorem cpAt_withEp (g : Grammar) (e : List (Str × Nat)) (ctx : Str) (lvl : Nat) :
    cpAt (withEp g e) ctx lvl = cpAt g ctx lvl := rfl

/-- The walker never reads ep. -/
theorem genCP_withEp (g : Grammar) (e : List (Str × Nat)) :
    ∀ (k : Nat) (pref : Str) (s : Int),
      genCP (withEp g e) k pref s = genCP g k pref s := by
  intro k
  induction k with
  | zero => intro pref s; rfl
  | succ k ih =>
    intro pref s
    simp only [genCP, withEp_maxLevel, withEp_ngram, cpAt_withEp, ih]

/-- Rebuilding the guess structure never reads ep. -/
theorem rebuildGuess_withEp (g : Grammar) (e : List (Str × Nat)) (a b : Nat)
    (s : MCState) :
    rebuildGuess ⟨withEp g e, a, b⟩ s = rebuildGuess ⟨g, a, b⟩ s := by
  simp only [rebuildGuess, genCP_withEp, lnBucket_withEp, ipBucket_withEp]

/-- Advancing the IP pointer never reads ep. -/
theorem increaseIpState_withEp (g : Grammar) (e : List (Str × Nat)) (a b : Nat)
    (s : MCState) (wt : Int) :
    increaseIpState ⟨withEp g e, a, b⟩ s wt = increaseIpState ⟨g, a, b⟩ s wt := by
  simp only [increaseIpState, withEp_maxLevel, ipBucket_withEp, rebuildGuess_withEp]

/-- Advancing the length pointer never reads ep. -/
theorem increaseLenState_withEp (g : Grammar) (e : List (Str × Nat)) (a b : Nat)
    (s : MCState) :
    increaseLenState ⟨withEp g e, a, b⟩ s = increaseLenState ⟨g, a, b⟩ s := by
  simp only [increaseLenState, withEp_maxLevel, lnBucket_withEp, rebuildGuess_withEp]

/-- Raising the target level never reads ep. -/
theorem bumpTarget_withEp (g : Grammar) (e : List (Str × Nat)) (a b : Nat)
    (s : MCState) :
    bumpTarget ⟨withEp g e, a, b⟩ s = bumpTarget ⟨g, a, b⟩ s := by
  simp only [bumpTarget, rebuildGuess_withEp]

/-- The draw-and-increase loop never reads ep. -/
theorem guessLoop_withEp (g : Grammar) (e : List (Str × Nat)) (a b : Nat) :
    ∀ (fuel : Nat) (s : MCState),
      guessLoop ⟨withEp g e, a, b⟩ fuel s = guessLoop ⟨g, a, b⟩ fuel s := by
  intro fuel
  induction fuel with
  | zero => intro s; rfl
  | succ fuel ih =>
    intro s
    simp only [guessLoop, increaseIpState_withEp, increaseLenState_withEp,
      bumpTarget_withEp, ih]

/-- The start state never reads ep. -/
theorem startState_withEp (g : Grammar) (e : List (Str × Nat)) (a b : Nat)
    (inc : Bool) (t : Int) :
    startState ⟨withEp g e, a, b⟩ inc t = startState ⟨g, a, b⟩ inc t := by
  simp only [startState, rebuildGuess_withEp]

/-- The call-initialisation block never reads ep. -/
theorem initPass_withEp (g : Grammar) (e : List (Str × Nat)) (a b : Nat)
    (lvl : Option Int) :
    initPass ⟨withEp g e, a, b⟩ lvl = initPass ⟨g, a, b⟩ lvl := by
  simp only [initPass, startState_withEp]

/-- next_guess never reads ep. -/
theorem nextGuess_withEp (g : Grammar) (e : List (Str × Nat)) (a b : Nat)
    (fuel : Nat) (lvl : Option Int) (s : MCState) :
    nextGuess ⟨withEp g e, a, b⟩ fuel lvl s = nextGuess ⟨g, a, b⟩ fuel lvl s := by
  simp only [nextGuess, initPass_withEp, guessLoop_withEp]

/-- Automatic-mode runs never read ep. -/
theorem runAuto_withEp (g : Grammar) (e : List (Str × Nat)) (a b : Nat)
    (fuel : Nat) : ∀ (n : Nat) (s : MCState),
    runAuto ⟨withEp g e, a, b⟩ fuel n s = runAuto ⟨g, a, b⟩ fuel n s := by
  intro n
  induction n with
  | zero => intro s; rfl
  | succ n ih =>
    intro s
    simp only [runAuto, nextGuess_withEp, ih]

/-- C7: two loaded grammars that agree on everything except their ep table
drive next_guess identically: every call returns the same result and the
same successor state, and every finite run emits the same (guess, total
level) sequence.  EP is never consulted on the guess-generation path. -/
theorem claimC7_enumeration_independent_of_ep
    (g1 g2 : Grammar) (a b : Nat)
    (hm : g1.maxLevel = g2.maxLevel) (hn : g1.ngram = g2.ngram)
    (hip : g1.ip = g2.ip) (hcp : g1.cp = g2.cp) (hln : g1.ln = g2.ln) :
    (∀ (fuel : Nat) (lvl : Option Int) (s : MCState),
      nextGuess ⟨g1, a, b⟩ fuel lvl s = nextGuess ⟨g2, a, b⟩ fuel lvl s) ∧
    (∀ (fuel n : Nat) (s : MCState),
      runAuto ⟨g1, a, b⟩ fuel n s = runAuto ⟨g2, a, b⟩ fuel n s) := by
  have hg : g1 = withEp g2 g1.ep := by
    obtain ⟨m1, n1, ip1, e1, cp1, ln1⟩ := g1
    obtain ⟨m2, n2, ip2, e2, cp2, ln2⟩ := g2
    simp only at hm hn hip hcp hln
    subst hm hn hip hcp hln
    rfl
  constructor
  · intro fuel lvl s
    rw [hg, nextGuess_withEp]
  · intro fuel n s
    rw [hg, runAuto_withEp]

/-- C7 witness: the example model and its ep-modified copy emit the same
first two guesses. -/
theorem claimC7_witness :
    runAuto ⟨exampleGEp, 0, 0⟩ 10 2 freshState =
      runAuto ⟨exampleG, 0, 0⟩ 10 2 freshState :=
  (claimC7_enumeration_independent_of_ep exampleGEp exampleG 0 0
    rfl rfl rfl rfl rfl).2 10 2 freshState

/-- The bounded scan returns a level exactly when that level is the first
one in the scanned window satisfying the test. -/
theorem scanLevels_eq_some (test : Nat → Bool) : ∀ (b cur lvl : Nat),
    scanLevels test b cur = some lvl ↔
      cur ≤ lvl ∧ lvl < cur + b ∧ test lvl = true ∧
      ∀ j, cur ≤ j → j < lvl → test j = false := by
  intro b
  induction b with
  | zero =>
    intro cur lvl
    simp only [scanLevels]
    constructor
    · intro h; exact absurd h (by simp)
    · rintro ⟨h1, h2, _, _⟩; omega
  | succ b ih =>
    intro cur lvl
    simp only [scanLevels]
    by_cases htest : test cur
    · rw [if_pos htest]
      constructor
      · intro h
        obtain rfl : cur = lvl := by simpa using h
        exact ⟨le_refl _, by omega, htest, fun j h1 h2 => by omega⟩
      · rintro ⟨h1, h2, h3, h4⟩
        rcases Nat.eq_or_lt_of_le h1 with rfl | hlt
        · rfl
        · exact absurd htest (by simp [h4 cur (le_refl _) hlt])
    · rw [if_neg htest]
      rw [ih (cur + 1) lvl]
      constructor
      · rintro ⟨h1, h2, h3, h4⟩
        refine ⟨by omega, by omega, h3, fun j hj1 hj2 => ?_⟩
        rcases Nat.eq_or_lt_of_le hj1 with rfl | hlt
        · exact Bool.not_eq_true _ ▸ (by simpa using htest)
        · exact h4 j (by omega) hj2
      · rintro ⟨h1, h2, h3, h4⟩
        have hne : lvl ≠ cur := by
          rintro rfl
          exact htest h3
        exact ⟨by omega, by omega, h3, fun j hj1 hj2 => h4 j (by omega) hj2⟩

/-- A successful Option-valued mapM produces one output per input. -/
theorem mapM_option_length (f : α → Option β) : ∀ (l : List α) (l' : List β),
    l.mapM f = some l' → l'.length = l.length := by
  intro l
  induction l with
  | nil => intro l' h; simp only [List.mapM_nil, Option.pure_def,
      Option.some.injEq] at h; rw [← h]; rfl
  | cons a rest ih =>
    intro l' h
    rw [List.mapM_cons] at h
    rcases ha : f a with _ | b
    · rw [ha] at h; exact absurd h (by simp)
    · rw [ha] at h
      rcases hrest : rest.mapM f with _ | bs
      · rw [hrest] at h; exact absurd h (by simp)
      · rw [hrest] at h
        simp only [Option.pure_def, Option.bind_eq_bind, Option.some_bind,
          Option.some.injEq] at h
        rw [← h]
        simp [ih bs hrest]

/-- Each output of a successful Option-valued mapM comes from the input at
the same position. -/
theorem mapM_option_getElem (f : α → Option β) : ∀ (l : List α) (l' : List β),
    l.mapM f = some l' → ∀ (i : Nat) (b : β), l'[i]? = some b →
      ∃ a, l[i]? = some a ∧ f a = some b := by
  intro l
  induction l with
  | nil =>
    intro l' h i b hb
    simp only [List.mapM_nil, Option.pure_def, Option.some.injEq] at h
    rw [← h] at hb
    exact absurd hb (by simp)
  | cons a rest ih =>
    intro l' h i b hb
    rw [List.mapM_cons] at h
    rcases ha : f a with _ | b0
    · rw [ha] at h; exact absurd h (by simp)
    · rw [ha] at h
      rcases hrest : rest.mapM f with _ | bs
      · rw [hrest] at h; exact absurd h (by simp)
      · rw [hrest] at h
        simp only [Option.pure_def, Option.bind_eq_bind, Option.some_bind,
          Option.some.injEq] at h
        rw [← h] at hb
        cases i with
        | zero =>
          simp only [List.getElem?_cons_zero, Option.some.injEq] at hb
          exact ⟨a, by simp, by rw [ha, hb]⟩
        | succ i =>
          simp only [List.getElem?_cons_succ] at hb
          obtain ⟨a1, ha1, hfa1⟩ := ih bs hrest i b hb
          exact ⟨a1, by simpa using ha1, hfa1⟩

/-- C6 (counterexample): on a trigram model whose only trained length level
is max_level, parse_input on the string abcd prints no length line at all,
although the model assigns that length the level max_level: the length scan
stops at max_level - 1.  The full report also shows that no end-prefix line
exists, against the claim that the EP level of cd is reported. -/
theorem claimC6_counterexample :
    parseInput exampleG6 ['a', 'b', 'c', 'd'] =
      some ⟨none, some 0, [some ('c', 0), some ('d', 0)]⟩ ∧
    lnHasLen exampleG6 exampleG6.maxLevel ['a', 'b', 'c', 'd'] = true := by
  decide

/-- find? returns an element exactly when it sits at some position of the
list, satisfies the test, and every earlier position fails it. -/
theorem find?_eq_some_first (p : α → Bool) : ∀ (l : List α) (a : α),
    l.find? p = some a ↔
      ∃ j, j < l.length ∧ l[j]? = some a ∧ p a = true ∧
        ∀ k b, k < j → l[k]? = some b → p b = false := by
  intro l
  induction l with
  | nil =>
    intro a
    constructor
    · intro h; exact absurd h (by simp)
    · rintro ⟨j, hj, _⟩; exact absurd hj (by simp)
  | cons x xs ih =>
    intro a
    by_cases hx : p x
    · rw [List.find?_cons_of_pos _ hx]
      constructor
      · intro h
        obtain rfl : x = a := by simpa using h
        exact ⟨0, by simp, by simp, hx, fun k b hk _ => absurd hk (by omega)⟩
      · rintro ⟨j, hj, hget, hpa, hnot⟩
        cases j with
        | zero =>
          obtain rfl : x = a := by simpa using hget
          rfl
        | succ k =>
          have := hnot 0 x (by omega) (by simp)
          exact absurd hx (by simp [this])
    · rw [List.find?_cons_of_neg _ hx]
      rw [ih a]
      constructor
      · rintro ⟨j, hj, hget, hpa, hnot⟩
        refine ⟨j + 1, by simpa using hj, by simpa using hget, hpa, ?_⟩
        intro k b hk hgetk
        cases k with
        | zero =>
          obtain rfl : x = b := by simpa using hgetk
          exact Bool.eq_false_iff.mpr hx
        | succ kk =>
          exact hnot kk b (by omega) (by simpa using hgetk)
      · rintro ⟨j, hj, hget, hpa, hnot⟩
        cases j with
        | zero =>
          obtain rfl : x = a := by simpa using hget
          exact absurd hpa (by simpa using hx)
        | succ k =>
          refine ⟨k, by simpa using hj, by simpa using hget, hpa, ?_⟩
          intro kk b hkk hgetkk
          exact hnot (kk + 1) b (by omega) (by simpa using hgetkk)

/-- C6 (amended): a parse_input call that does not hit a missing CP context
reports the length level and the IP level exactly when the first matching
level is strictly below max_level (a level equal to max_level is never
reported); it prints one line per CP transition, and the i-th transition
line carries the pair (ch, lvl) exactly when ch is the transition character
of the guess and lvl is the first stored level of the context whose bucket
holds ch; whenever some stored bucket of the context holds the transition
character, a line for that transition is reported.  No EP level is computed
or reported. -/
theorem claimC6_parse_reports (g : Grammar) (guess : Str) (r : ParseReport)
    (h : parseInput g guess = some r) :
    (∀ lvl, r.lnReport = some lvl ↔
      lvl < g.maxLevel ∧ lnHasLen g lvl guess = true ∧
      ∀ j, j < lvl → lnHasLen g j guess = false) ∧
    (∀ lvl, r.ipReport = some lvl ↔
      lvl < g.maxLevel ∧ ipHasPref g lvl guess = true ∧
      ∀ j, j < lvl → ipHasPref g j guess = false) ∧
    r.cpReports.length = guess.length - (g.ngram - 1) ∧
    (∀ i, i < guess.length - (g.ngram - 1) → ∀ (ch : Char) (lvl : Nat),
      (r.cpReports[i]? = some (some (ch, lvl)) ↔
        guess[i + (g.ngram - 1)]? = some ch ∧
        ∃ (j : Nat) (bucket : List Char),
          (cpAssoc g ((guess.drop i).take (g.ngram - 1)))[j]? = some (lvl, bucket) ∧
          ch ∈ bucket ∧
          ∀ (k lvl2 : Nat) (bucket2 : List Char), k < j →
            (cpAssoc g ((guess.drop i).take (g.ngram - 1)))[k]? = some (lvl2, bucket2) →
            ch ∉ bucket2)) ∧
    (∀ i, i < guess.length - (g.ngram - 1) → ∀ ch : Char,
      guess[i + (g.ngram - 1)]? = some ch →
      (∃ b ∈ cpAssoc g ((guess.drop i).take (g.ngram - 1)), ch ∈ b.2) →
      ∃ lvl, r.cpReports[i]? = some (some (ch, lvl))) := by
  unfold parseInput at h
  rcases hcps : cpReportsList g guess with _ | cps
  · rw [hcps] at h; exact absurd h (by simp)
  · rw [hcps] at h
    simp only [Option.some.injEq] at h
    subst h
    refine ⟨?_, ?_, ?_, ?_, ?_⟩
    · intro lvl
      rw [show (ParseReport.lnReport ⟨scanLevels (fun lvl => lnHasLen g lvl guess)
          g.maxLevel 0, scanLevels (fun lvl => ipHasPref g lvl guess) g.maxLevel 0,
          cps⟩) = scanLevels (fun lvl => lnHasLen g lvl guess) g.maxLevel 0 from rfl]
      rw [scanLevels_eq_some]
      constructor
      · rintro ⟨h1, h2, h3, h4⟩
        exact ⟨by omega, h3, fun j hj => h4 j (by omega) hj⟩
      · rintro ⟨h1, h2, h3⟩
        exact ⟨by omega, by omega, h2, fun j _ hj => h3 j hj⟩
    · intro lvl
      rw [show (ParseReport.ipReport ⟨scanLevels (fun lvl => lnHasLen g lvl guess)
          g.maxLevel 0, scanLevels (fun lvl => ipHasPref g lvl guess) g.maxLevel 0,
          cps⟩) = scanLevels (fun lvl => ipHasPref g lvl guess) g.maxLevel 0 from rfl]
      rw [scanLevels_eq_some]
      constructor
      · rintro ⟨h1, h2, h3, h4⟩
        exact ⟨by omega, h3, fun j hj => h4 j (by omega) hj⟩
      · rintro ⟨h1, h2, h3⟩
        exact ⟨by omega, by omega, h2, fun j _ hj => h3 j hj⟩
    · have := mapM_option_length (cpReportAt g guess) _ _ hcps
      simpa using this
    · intro i hi ch lvl
      rw [show (ParseReport.cpReports ⟨scanLevels (fun lvl => lnHasLen g lvl guess)
          g.maxLevel 0, scanLevels (fun lvl => ipHasPref g lvl guess) g.maxLevel 0,
          cps⟩) = cps from rfl]
      have hlen : cps.length = guess.length - (g.ngram - 1) := by
        have := mapM_option_length (cpReportAt g guess) _ _ hcps
        simpa using this
      have hic : i < cps.length := by omega
      obtain ⟨x, hx, hfa⟩ := mapM_option_getElem (cpReportAt g guess) _ _ hcps i _
        (List.getElem?_eq_getElem hic)
      rw [List.getElem?_range (by omega : i < guess.length - (g.ngram - 1))] at hx
      rw [show x = i from (by simpa using hx : i = x).symm] at hfa
      unfold cpReportAt at hfa
      rcases hfind : g.cp.find? (fun e => e.1 == (guess.drop i).take (g.ngram - 1))
        with _ | e
      · rw [hfind] at hfa; exact absurd hfa (by simp)
      · rw [hfind] at hfa
        dsimp only at hfa
        have hcpa : cpAssoc g ((guess.drop i).take (g.ngram - 1)) = e.2 := by
          unfold cpAssoc
          rw [hfind]
        rw [hcpa]
        rcases hch2 : guess[i + (g.ngram - 1)]? with _ | c
        · rw [hch2] at hfa
          dsimp only at hfa
          have hval : cps[i] = none := by simpa using hfa.symm
          constructor
          · intro hgoal
            rw [List.getElem?_eq_getElem hic, hval] at hgoal
            exact absurd hgoal (by simp)
          · rintro ⟨hchh, _⟩
            exact absurd hchh (by simp)
        · rw [hch2] at hfa
          dsimp only at hfa
          rcases hfb : e.2.find? (fun b => b.2.contains c) with _ | b
          · rw [hfb] at hfa
            dsimp only at hfa
            have hval : cps[i] = none := by simpa using hfa.symm
            constructor
            · intro hgoal
              rw [List.getElem?_eq_getElem hic, hval] at hgoal
              exact absurd hgoal (by simp)
            · rintro ⟨hchh, j, bucket, hj, hmem, _⟩
              obtain rfl : c = ch := by simpa using hchh
              have hmem2 : (lvl, bucket) ∈ e.2 := by
                obtain ⟨hlt, heq⟩ := List.getElem?_eq_some_iff.mp hj
                rw [← heq]
                exact List.getElem_mem hlt
              have hnc := List.find?_eq_none.mp hfb _ hmem2
              simp only [Bool.not_eq_true] at hnc
              exact absurd hmem (by simpa using hnc)
          · rw [hfb] at hfa
            dsimp only at hfa
            have hval : cps[i] = some (c, b.1) := by simpa using hfa.symm
            obtain ⟨jb, hjb, hgetb, hpb, hnotb⟩ := (find?_eq_some_first _ e.2 b).mp hfb
            have hcmem : c ∈ b.2 := by simpa using hpb
            constructor
            · intro hgoal
              rw [List.getElem?_eq_getElem hic, hval] at hgoal
              have h2 : c = ch ∧ b.1 = lvl := by simpa using hgoal
              obtain ⟨rfl, rfl⟩ := h2
              refine ⟨rfl, jb, b.2, hgetb, hcmem, ?_⟩
              intro k lvl2 bucket2 hk hgetk
              have := hnotb k (lvl2, bucket2) hk hgetk
              simpa using this
            · rintro ⟨hchh, j, bucket, hj, hmem, hnot⟩
              obtain rfl : c = ch := by simpa using hchh
              have hbl : b.1 = lvl := by
                rcases lt_trichotomy j jb with hlt | heq | hgt
                · have := hnotb j (lvl, bucket) hlt hj
                  exact absurd hmem (by simpa using this)
                · subst heq
                  rw [hgetb] at hj
                  have hb : b = (lvl, bucket) := by simpa using hj
                  rw [hb]
                · have := hnot jb b.1 b.2 hgt hgetb
                  exact absurd hcmem this
              rw [List.getElem?_eq_getElem hic, hval, hbl]
    · intro i hi ch hch hex
      rw [show (ParseReport.cpReports ⟨scanLevels (fun lvl => lnHasLen g lvl guess)
          g.maxLevel 0, scanLevels (fun lvl => ipHasPref g lvl guess) g.maxLevel 0,
          cps⟩) = cps from rfl]
      have hlen : cps.length = guess.length - (g.ngram - 1) := by
        have := mapM_option_length (cpReportAt g guess) _ _ hcps
        simpa using this
      have hic : i < cps.length := by omega
      obtain ⟨x, hx, hfa⟩ := mapM_option_getElem (cpReportAt g guess) _ _ hcps i _
        (List.getElem?_eq_getElem hic)
      rw [List.getElem?_range (by omega : i < guess.length - (g.ngram - 1))] at hx
      rw [show x = i from (by simpa using hx : i = x).symm] at hfa
      unfold cpReportAt at hfa
      rcases hfind : g.cp.find? (fun e => e.1 == (guess.drop i).take (g.ngram - 1))
        with _ | e
      · rw [hfind] at hfa; exact absurd hfa (by simp)
      · rw [hfind] at hfa
        dsimp only at hfa
        have hcpa : cpAssoc g ((guess.drop i).take (g.ngram - 1)) = e.2 := by
          unfold cpAssoc
          rw [hfind]
        rw [hcpa] at hex
        rw [hch] at hfa
        dsimp only at hfa
        rcases hfb : e.2.find? (fun b => b.2.contains ch) with _ | b
        · obtain ⟨bb, hbbmem, hbbch⟩ := hex
          have hnc := List.find?_eq_none.mp hfb _ hbbmem
          simp only [Bool.not_eq_true] at hnc
          exact absurd hbbch (by simpa using hnc)
        · rw [hfb] at hfa
          dsimp only at hfa
          have hval : cps[i] = some (ch, b.1) := by simpa using hfa.symm
          refine ⟨b.1, ?_⟩
          rw [List.getElem?_eq_getElem hic, hval]

/-- C6 witness: on the trigram example, parse_input prints one CP line per
transition of abcd, and the first transition line carries the character c
at level 0, the first stored level of the context ab holding c. -/
theorem claimC6_witness :
    (ParseReport.cpReports ⟨none, some 0, [some ('c', 0), some ('d', 0)]⟩).length =
      (['a', 'b', 'c', 'd'] : Str).length - (exampleG6.ngram - 1) ∧
    (ParseReport.cpReports ⟨none, some 0, [some ('c', 0), some ('d', 0)]⟩)[0]? =
      some (some ('c', 0)) := by
  have h := claimC6_parse_reports exampleG6 ['a', 'b', 'c', 'd']
    ⟨none, some 0, [some ('c', 0), some ('d', 0)]⟩ (by decide)
  refine ⟨h.2.2.1, ?_⟩
  exact (h.2.2.2.1 0 (by decide) 'c' 0).mpr
    ⟨by decide, 0, ['c'], by decide, by decide,
     fun k lvl2 bucket2 hk _ => absurd hk (by omega)⟩
